import Mathlib

/-!
Verification development for the CRM-AI ML engine (`ml-engine/main.py`).

The Python source is shallowly embedded: pandas columns become Lean lists,
floats become exact rationals (`ℚ`), integer columns become `ℤ`, and the
opaque ML backends (scikit-learn / xgboost fitting routines) become explicit
function parameters, while every piece of surrounding logic (feature
engineering, label generation with its degeneracy guard, quantiles with
pandas' linear interpolation, batching, filtering/sorting, grouping and the
dispatch decision) is translated directly from the source.
-/

namespace CRM

/-- Shallow embedding of `numpy.clip(x, lo, hi)` on rationals. -/
def clipQ (lo hi x : ℚ) : ℚ := min hi (max lo x)

/-- Shallow embedding of `pandas.Series.mean()`: sum divided by length
(division by zero yields zero, matching the guarded uses in the source). -/
def mean (l : List ℚ) : ℚ := l.sum / (l.length : ℚ)

/-- Shallow embedding of `pandas.Series.quantile(q)` with the default linear
interpolation: with the values sorted ascending and `pos = q * (n - 1)`, the
result interpolates between the entries at `⌊pos⌋` and `⌈pos⌉`.  The source
only evaluates quantiles of non-empty columns; the empty case returns 0. -/
def quantile (l : List ℚ) (q : ℚ) : ℚ :=
  let s := l.insertionSort (· ≤ ·)
  let n := l.length
  if n = 0 then 0
  else
    let pos : ℚ := q * ((n : ℚ) - 1)
    let lo := (⌊pos⌋).toNat
    let hi := (⌈pos⌉).toNat
    let a := s.getD lo 0
    let b := s.getD hi 0
    a + (b - a) * (pos - (lo : ℚ))

/-- Input record (`CustomerDataIn`), after upstream date parsing has resolved
`days_since_last_purchase` to a concrete integer (`parse_and_fill_dates`
derives it from `last_interaction_date` relative to "now", with sentinel 999
when absent; that clock-relative step is outside this model). -/
structure Customer where
  customer_id : String
  company_name : String
  industry : String
  total_spent : ℚ
  engagement_score : ℚ
  purchase_frequency : ℤ
  days_since_last_purchase : ℤ
  deriving Repr, DecidableEq

/-- Feature table row produced by `create_advanced_features`: the original
columns plus the derived ones. -/
structure FeatureRow where
  customer_id : String
  company_name : String
  industry : String
  total_spent : ℚ
  engagement_score : ℚ
  purchase_frequency : ℤ
  days_since_last_purchase : ℤ
  recency : ℤ
  frequency : ℤ
  monetary : ℚ
  engagement_normalized : ℚ
  high_engagement : ℕ
  low_engagement : ℕ
  months_since_last_purchase : ℚ
  recent_activity : ℕ
  value_score : ℚ
  industry_encoded : ℤ
  deriving Repr, DecidableEq, Inhabited

/-- Byte-wise lexicographic `≤` on strings (Python's string ordering by code
points, used by `sorted` and `pd.Categorical`). -/
def strLeB (a b : String) : Bool :=
  go a.data b.data
where
  go : List Char → List Char → Bool
  | [], _ => true
  | _ :: _, [] => false
  | c :: cs, d :: ds =>
    if c.val.toNat < d.val.toNat then true
    else if d.val.toNat < c.val.toNat then false
    else go cs ds

/-- Category list of `pd.Categorical(df["industry"])`: the distinct industry
values, sorted ascending; a row's code is its index in this list. -/
def industryCategories (customers : List Customer) : List String :=
  ((customers.map (·.industry)).dedup).insertionSort (fun a b => strLeB a b)

/-- Column-level min–max normalisation of `total_spent`
(`create_advanced_features` lines 136-143): 0 for every row when the column
is constant (or empty), else `(x - min) / (max - min)`. -/
def datasetValueScore (spents : List ℚ) (x : ℚ) : ℚ :=
  match spents.min?, spents.max? with
  | some mn, some mx => if mx = mn then 0 else (x - mn) / (mx - mn)
  | _, _ => 0

/-- Shallow embedding of `create_advanced_features`: vectorized feature
engineering over the whole dataset. -/
def create_advanced_features (customers : List Customer) : List FeatureRow :=
  let spents := customers.map (·.total_spent)
  let codes := industryCategories customers
  customers.map (fun c =>
    { customer_id := c.customer_id
      company_name := c.company_name
      industry := c.industry
      total_spent := c.total_spent
      engagement_score := c.engagement_score
      purchase_frequency := c.purchase_frequency
      days_since_last_purchase := c.days_since_last_purchase
      recency := c.days_since_last_purchase
      frequency := c.purchase_frequency
      monetary := c.total_spent
      engagement_normalized := c.engagement_score / 100
      high_engagement := if c.engagement_score > (80 : ℚ) then 1 else 0
      low_engagement := if c.engagement_score < (40 : ℚ) then 1 else 0
      months_since_last_purchase := (c.days_since_last_purchase : ℚ) / 30
      recent_activity := if c.days_since_last_purchase < (90 : ℤ) then 1 else 0
      value_score := datasetValueScore spents c.total_spent
      industry_encoded := (codes.indexOf c.industry : ℤ) })

/-! Segmentation (`perform_customer_segmentation_large` and helpers). -/

/-- Shallow embedding of `get_rule_based_segment`: fixed rule ladder assigning
a segment id to a single row. -/
def get_rule_based_segment (r : FeatureRow) : ℤ :=
  if r.total_spent > 150000 ∧ r.engagement_score > 80 then 0
  else if r.total_spent > 75000 ∧ r.engagement_score > 60 then 1
  else if r.engagement_score < 40 ∨ r.days_since_last_purchase > 180 then 2
  else 3

/-- Shallow embedding of `get_segment_name`: names a segment from its own
rows' statistics (the quantiles are taken over `segment_data`, the rows of
this segment). -/
def get_segment_name (segment_id : ℤ) (segment_data : List FeatureRow) : String :=
  if segment_data.isEmpty then "Segment " ++ toString segment_id
  else
    let spents := segment_data.map (·.total_spent)
    let avg_value := mean spents
    let avg_engagement := mean (segment_data.map (·.engagement_score))
    if avg_value > quantile spents 0.7 ∧ avg_engagement > 80 then "High Value Champions"
    else if avg_value > quantile spents 0.5 ∧ avg_engagement > 60 then "Loyal Customers"
    else if avg_engagement < 40 ∨
        mean (segment_data.map (fun r => (r.days_since_last_purchase : ℚ))) > 180 then "At Risk"
    else "Growth Potential"

/-- Output summary of one segment. -/
structure Segment where
  name : String
  count : ℕ
  revenue : ℚ
  avgEngagement : ℚ
  avgValue : ℚ
  customers : List String
  deriving Repr, DecidableEq

/-- Rows of `df` carrying segment label `sid` (`df[df["segment"] == seg_id]`). -/
def segmentRows (df : List FeatureRow) (labels : List ℤ) (sid : ℤ) : List FeatureRow :=
  ((df.zip labels).filter (fun p => decide (p.2 = sid))).map (·.1)

/-- Distinct segment labels in ascending order
(`sorted(df["segment"].unique())`). -/
def sortedSegmentIds (labels : List ℤ) : List ℤ :=
  (labels.dedup).insertionSort (· ≤ ·)

/-- Summary-building loop at the end of `perform_customer_segmentation_large`. -/
def buildSegmentSummaries (df : List FeatureRow) (labels : List ℤ) : List Segment :=
  (sortedSegmentIds labels).map (fun sid =>
    let seg := segmentRows df labels sid
    { name := get_segment_name sid seg
      count := seg.length
      revenue := (seg.map (·.total_spent)).sum
      avgEngagement := if seg.length = 0 then 0 else mean (seg.map (·.engagement_score))
      avgValue := if seg.length = 0 then 0 else mean (seg.map (·.total_spent))
      customers := seg.map (·.customer_id) })

/-! Churn modelling (`perform_churn_prediction_large` and helpers). -/

/-- Trained churn classifier.  The fitting routines (`xgb.train`,
`RandomForestClassifier.fit`) are opaque ML backends; a trained model is
embedded by what inference reads from it: a per-row raw score for the
xgboost branch, and a per-row class-probability vector (of width
`nClasses`) for the sklearn branch. -/
inductive ChurnModel where
  | xgboost (raw : FeatureRow → ℚ)
  | sklearn (proba : FeatureRow → List ℚ) (nClasses : ℕ)

/-- Shallow embedding of `predict_churn_model`: xgboost probabilities are
clipped into [0,1]; sklearn takes column 1 of `predict_proba` when it has
two classes and falls back to a zero vector otherwise. -/
def predict_churn_model : ChurnModel → List FeatureRow → List ℚ
  | .xgboost raw, X => X.map (fun r => clipQ 0 1 (raw r))
  | .sklearn proba nClasses, X =>
      if nClasses = 2 then X.map (fun r => (proba r).getD 1 0)
      else List.replicate X.length 0

/-- Batched scoring loop of `perform_churn_prediction_large`: predictions are
computed over consecutive slices of size `B` and written back in order
(`probs[start:end] = predict_churn_model(model_tuple, X_batch)`). -/
def batchedPredict (model : ChurnModel) (B : ℕ) : List FeatureRow → List ℚ
  | [] => []
  | x :: xs =>
    if _hB : B = 0 then []
    else
      predict_churn_model model ((x :: xs).take B) ++ batchedPredict model B ((x :: xs).drop B)
termination_by l => l.length
decreasing_by simp [List.length_drop]; omega

/-- Summand structure of one row's composite weak-supervision churn score
(lines 246-251); `q30` is the dataset-wide 30th percentile of `total_spent`. -/
def churn_score_row (q30 : ℚ) (r : FeatureRow) : ℚ :=
  (if r.days_since_last_purchase > 180 then 1 else 0) * (0.4 : ℚ) +
  (if r.engagement_score < 30 then 1 else 0) * 0.3 +
  (if r.purchase_frequency = 0 then 1 else 0) * 0.2 +
  (if r.total_spent < q30 then 1 else 0) * 0.1

/-- Composite weak-supervision churn score column (lines 246-251). -/
def churn_score_col (df : List FeatureRow) : List ℚ :=
  df.map (churn_score_row (quantile (df.map (·.total_spent)) 0.3))

/-- Ascending order on (score, position) pairs with ties broken by the
earlier position — the order underlying `Series.nsmallest` (default
`keep="first"`). -/
def ascByScore (a b : ℚ × ℕ) : Prop := a.1 < b.1 ∨ (a.1 = b.1 ∧ a.2 ≤ b.2)

/-- Descending order on (score, position) pairs with ties broken by the
earlier position — the order underlying `Series.nlargest` (default
`keep="first"`). -/
def descByScore (a b : ℚ × ℕ) : Prop := b.1 < a.1 ∨ (a.1 = b.1 ∧ a.2 ≤ b.2)

instance : DecidableRel ascByScore := fun a b => by unfold ascByScore; infer_instance

instance : DecidableRel descByScore := fun a b => by unfold descByScore; infer_instance

instance : IsTotal (ℚ × ℕ) ascByScore :=
  ⟨fun a b => by
    unfold ascByScore
    rcases lt_trichotomy a.1 b.1 with h | h | h
    · exact Or.inl (Or.inl h)
    · rcases le_total a.2 b.2 with h2 | h2
      · exact Or.inl (Or.inr ⟨h, h2⟩)
      · exact Or.inr (Or.inr ⟨h.symm, h2⟩)
    · exact Or.inr (Or.inl h)⟩

instance : IsTrans (ℚ × ℕ) ascByScore :=
  ⟨fun a b c hab hbc => by
    unfold ascByScore at *
    rcases hab with h | ⟨he, hi⟩ <;> rcases hbc with h' | ⟨he', hi'⟩
    · exact Or.inl (h.trans h')
    · exact Or.inl (he' ▸ h)
    · exact Or.inl (he ▸ h')
    · exact Or.inr ⟨he.trans he', hi.trans hi'⟩⟩

instance : IsTotal (ℚ × ℕ) descByScore :=
  ⟨fun a b => by
    unfold descByScore
    rcases lt_trichotomy a.1 b.1 with h | h | h
    · exact Or.inr (Or.inl h)
    · rcases le_total a.2 b.2 with h2 | h2
      · exact Or.inl (Or.inr ⟨h, h2⟩)
      · exact Or.inr (Or.inr ⟨h.symm, h2⟩)
    · exact Or.inl (Or.inl h)⟩

instance : IsTrans (ℚ × ℕ) descByScore :=
  ⟨fun a b c hab hbc => by
    unfold descByScore at *
    rcases hab with h | ⟨he, hi⟩ <;> rcases hbc with h' | ⟨he', hi'⟩
    · exact Or.inl (h'.trans h)
    · exact Or.inl (he' ▸ h)
    · exact Or.inl (he ▸ h')
    · exact Or.inr ⟨he.trans he', hi.trans hi'⟩⟩

/-- Positions of a column's values after sorting the (value, position) pairs
by `r`. -/
def sortedIdxBy (r : ℚ × ℕ → ℚ × ℕ → Prop) [DecidableRel r] (scores : List ℚ) : List ℕ :=
  ((scores.zip (List.range scores.length)).insertionSort r).map Prod.snd

/-- Positions of the `k` smallest values of a column
(`series.nsmallest(k).index` for a column indexed by position). -/
def nsmallestIdx (k : ℕ) (scores : List ℚ) : List ℕ :=
  (sortedIdxBy ascByScore scores).take k

/-- Positions of the `k` largest values of a column
(`series.nlargest(k).index` for a column indexed by position). -/
def nlargestIdx (k : ℕ) (scores : List ℚ) : List ℕ :=
  (sortedIdxBy descByScore scores).take k

/-- Positional bulk assignment `df.loc[idx, col] = v`: entries of `l` whose
position (counted from `base`) lies in `idxs` are replaced by `v`. -/
def setFrom (base : ℕ) (idxs : List ℕ) (v : ℕ) : List ℕ → List ℕ
  | [] => []
  | x :: xs => (if base ∈ idxs then v else x) :: setFrom (base + 1) idxs v xs

/-- Threshold of the label rule: the composite score column's own 70th
percentile (`churn_score.quantile(0.7)`). -/
def churn_threshold (df : List FeatureRow) : ℚ :=
  quantile (churn_score_col df) 0.7

/-- Labels before the degeneracy guards:
`(churn_score >= churn_threshold).astype(int)`. -/
def initialChurnLabels (df : List FeatureRow) : List ℕ :=
  (churn_score_col df).map (fun s => if s ≥ churn_threshold df then 1 else 0)

/-- Row count touched by either degeneracy guard: `max(1, len(df)//20)`. -/
def churnGuardK (n : ℕ) : ℕ := max 1 (n / 20)

/-- Weak-supervision label generation of `perform_churn_prediction_large`
(lines 246-260): threshold the composite score at its own 70th percentile,
then apply the two degeneracy guards (force the top ~5% by score to 1 when
no row is labeled 1; force the bottom ~5% to 0 when every row is). -/
def churnLabels (df : List FeatureRow) : List ℕ :=
  let l0 := initialChurnLabels df
  let l1 :=
    if l0.sum = 0
    then setFrom 0 (nlargestIdx (churnGuardK df.length) (churn_score_col df)) 1 l0
    else l0
  if l1.sum = df.length
  then setFrom 0 (nsmallestIdx (churnGuardK df.length) (churn_score_col df)) 0 l1
  else l1

/-- Opaque ML backends used by the pipeline: the clusterer
(`MiniBatchKMeans.fit_predict` over the standardized feature matrix, with
`choose_k_sampled`), the stratified training-sample selection
(`train_test_split` and its uniform fallback), the model-fitting routines of
`build_churn_model_scaled`, and the sklearn availability flag. -/
structure MLBackend where
  sklearnAvailable : Bool
  clusterLabels : List FeatureRow → List ℤ
  trainSampler : List FeatureRow → List ℕ → List FeatureRow × List ℕ
  fitChurn : List FeatureRow → List ℕ → ChurnModel

/-- Shallow embedding of `perform_customer_segmentation_large`: rule-based
labels for small data (or when forced, or without sklearn), clusterer labels
otherwise, followed by the summary-building loop. -/
def perform_customer_segmentation_large (be : MLBackend) (force_rule_based : Bool)
    (df : List FeatureRow) : List Segment :=
  let labels :=
    if df.length < 50 ∨ force_rule_based ∨ ¬be.sklearnAvailable
    then df.map get_rule_based_segment
    else be.clusterLabels df
  buildSegmentSummaries df labels

/-- Risk bucket from a churn probability (`get_risk_level`). -/
def get_risk_level (p : ℚ) : String :=
  if p ≥ 0.7 then "High Risk"
  else if p ≥ 0.4 then "Medium Risk"
  else "Low Risk"

/-- Shallow embedding of `get_key_factors`: up to three rule-derived factor
strings in fixed priority order. -/
def get_key_factors (r : FeatureRow) : List String :=
  (((if r.days_since_last_purchase > 180 then ["No recent activity"] else []) ++
    (if r.engagement_score < 40 then ["Low engagement"] else []) ++
    (if r.purchase_frequency = 0 then ["No purchase history"] else [])).take 3)

/-- Recommended action from a churn probability (`get_churn_action`). -/
def get_churn_action (p : ℚ) : String :=
  if p ≥ 0.7 then "Immediate intervention required - schedule call with account manager"
  else if p ≥ 0.4 then "Send re-engagement campaign and follow up"
  else "Monitor and maintain regular contact"

/-- Churn output record. -/
structure ChurnPrediction where
  customer_id : String
  company_name : String
  churn_probability : ℚ
  risk_level : String
  key_factors : List String
  recommended_action : String
  deriving Repr, DecidableEq

/-- Shallow embedding of `perform_churn_prediction_large`: generate labels,
optionally subsample for training when the dataset exceeds the configured
cap, fit the model, score the full population in batches of 50000, and
assemble the per-customer output records. -/
def perform_churn_prediction_large (trainSampleSize : ℕ) (be : MLBackend)
    (df : List FeatureRow) : List ChurnPrediction :=
  let labels := churnLabels df
  let n := df.length
  let tr := if n > trainSampleSize then be.trainSampler df labels else (df, labels)
  let model := be.fitChurn tr.1 tr.2
  let probs := batchedPredict model 50000 df
  (df.zip probs).map (fun p =>
    { customer_id := p.1.customer_id
      company_name := p.1.company_name
      churn_probability := p.2
      risk_level := get_risk_level p.2
      key_factors := get_key_factors p.1
      recommended_action := get_churn_action p.2 })

/-! Upsell detection (`detect_upsell_opportunities_large` and helpers). -/

/-- Vectorized upsell score (line 315-317). -/
def upsell_score_row (r : FeatureRow) : ℚ :=
  r.engagement_score / 100 * 0.3 + r.value_score * 0.4 + (r.recent_activity : ℚ) * 0.2 +
    (1 - clipQ 0 365 (r.days_since_last_purchase : ℚ) / 365) * 0.1

/-- Product recommendations by spend bracket (`get_recommended_products`). -/
def get_recommended_products (r : FeatureRow) : List String :=
  if r.total_spent > 100000 then ["Enterprise Plan", "Premium Support", "Advanced Analytics"]
  else if r.total_spent > 50000 then ["Professional Plan", "Priority Support", "Custom Integration"]
  else ["Standard Plan", "Basic Support", "Training Package"]

/-- Confidence bucket from an upsell score (`get_upsell_confidence`). -/
def get_upsell_confidence (score : ℚ) : String :=
  if score ≥ 0.8 then "High Confidence"
  else if score ≥ 0.6 then "Medium Confidence"
  else "Low Confidence"

/-- Upsell output record. -/
structure UpsellOpportunity where
  customer_id : String
  company_name : String
  upsell_score : ℚ
  current_value : ℚ
  potential_value : ℚ
  recommended_products : List String
  confidence : String
  deriving Repr, DecidableEq

/-- Output record built from a scored row in the loop of
`detect_upsell_opportunities_large`. -/
def mkOpportunity (p : FeatureRow × ℚ) : UpsellOpportunity :=
  { customer_id := p.1.customer_id
    company_name := p.1.company_name
    upsell_score := p.2
    current_value := p.1.total_spent
    potential_value := p.1.total_spent * 1.5
    recommended_products := get_recommended_products p.1
    confidence := get_upsell_confidence p.2 }

/-- Descending order on scored rows (`sort_values("upsell_score",
ascending=False)`; the order of equal scores is unspecified there). -/
def scoreDesc (a b : FeatureRow × ℚ) : Prop := b.2 ≤ a.2

instance : DecidableRel scoreDesc := fun a b => by unfold scoreDesc; infer_instance

instance : IsTotal (FeatureRow × ℚ) scoreDesc :=
  ⟨fun a b => by unfold scoreDesc; exact le_total b.2 a.2⟩

instance : IsTrans (FeatureRow × ℚ) scoreDesc :=
  ⟨fun a b c hab hbc => by unfold scoreDesc at *; exact hbc.trans hab⟩

/-- Shallow embedding of `detect_upsell_opportunities_large`: score every
row, keep scores strictly above 0.6, sort descending, build output records. -/
def detect_upsell_opportunities_large (df : List FeatureRow) : List UpsellOpportunity :=
  let scored := df.map (fun r => (r, upsell_score_row r))
  let high_pot := (scored.filter (fun p => decide (p.2 > 0.6))).insertionSort scoreDesc
  high_pot.map mkOpportunity

/-! Insight aggregation (`generate_ai_insights`). -/

/-- The `summary` block of the insights payload. -/
structure InsightSummary where
  total_customers : ℕ
  total_revenue : ℚ
  average_engagement : ℚ
  churn_rate : ℚ
  upsell_opportunities : ℕ
  deriving Repr, DecidableEq

/-- Aggregates computed by `generate_ai_insights`.  The `key_insights`
narrative strings of the source are fixed templates over exactly these
numbers (plus the fixed `recommendations` list); they are represented here
by their numeric ingredients. -/
structure Insights where
  summary : InsightSummary
  distinct_segments : ℕ
  high_risk_count : ℕ
  potential_revenue : ℚ
  average_customer_value : ℚ
  top_segment_name : String
  recommendations : List String
  deriving Repr, DecidableEq

/-- First segment with maximal revenue (`max(segments, key=...)`); `none` on
an empty list (the source guards with `if segments else 'N/A'`). -/
def maxByRevenue : List Segment → Option Segment
  | [] => none
  | s :: rest => some (rest.foldl (fun acc t => if t.revenue > acc.revenue then t else acc) s)

/-- Shallow embedding of `generate_ai_insights`. -/
def generate_ai_insights (df : List FeatureRow) (segments : List Segment)
    (churn_predictions : List ChurnPrediction)
    (upsell_opportunities : List UpsellOpportunity) : Insights :=
  let total_customers := df.length
  let total_revenue := (df.map (·.total_spent)).sum
  let avg_engagement := mean (df.map (·.engagement_score))
  let churn_rate : ℚ :=
    if total_customers = 0 then 0
    else ((churn_predictions.filter
            (fun p => decide (p.churn_probability > 0.5))).length : ℚ) / total_customers * 100
  let potential_revenue :=
    (upsell_opportunities.map (fun u => u.potential_value - u.current_value)).sum
  { summary :=
      { total_customers := total_customers
        total_revenue := total_revenue
        average_engagement := avg_engagement
        churn_rate := churn_rate
        upsell_opportunities := upsell_opportunities.length }
    distinct_segments := segments.length
    high_risk_count :=
      (churn_predictions.filter (fun p => decide (p.churn_probability > 0.7))).length
    potential_revenue := potential_revenue
    average_customer_value :=
      if total_customers = 0 then 0 else total_revenue / (total_customers : ℚ)
    top_segment_name := ((maxByRevenue segments).map (·.name)).getD "N/A"
    recommendations :=
      ["Focus on high-risk customers to reduce churn",
       "Run targeted upsell campaigns for high potential customers",
       "Develop segment-specific engagement cadences"] }

/-! Dispatch (`process_customers`) and the background job
(`process_customers_background`). -/

/-- Complete synchronous result payload. -/
structure PipelineResult where
  segments : List Segment
  churn_predictions : List ChurnPrediction
  upsell_opportunities : List UpsellOpportunity
  insights : Insights
  processed_count : ℕ
  timestamp : String
  deriving Repr, DecidableEq

/-- Payload of an `MLResponse`: either the full result or only a job id. -/
inductive ResponseData where
  | result (r : PipelineResult)
  | job (job_id : String)
  deriving Repr, DecidableEq

/-- Shallow embedding of the `MLResponse` Pydantic model. -/
structure MLResponse where
  success : Bool
  message : String
  data : Option ResponseData
  deriving Repr, DecidableEq

/-- Configuration tunables read from the environment (with their defaults). -/
structure MLConfig where
  trainSampleSize : ℕ := 10000
  largeThreshold : ℕ := 200000
  deriving Repr, DecidableEq

/-- The synchronous pipeline: Feature Builder, then the three scorers, then
the aggregator (`process_customers` lines 458-463).  `timestamp` stands for
`datetime.utcnow().isoformat()`. -/
def runPipeline (cfg : MLConfig) (be : MLBackend) (timestamp : String)
    (customers : List Customer) : PipelineResult :=
  let df := create_advanced_features customers
  let segments := perform_customer_segmentation_large be false df
  let churn := perform_churn_prediction_large cfg.trainSampleSize be df
  let upsell := detect_upsell_opportunities_large df
  { segments := segments
    churn_predictions := churn
    upsell_opportunities := upsell
    insights := generate_ai_insights df segments churn upsell
    processed_count := df.length
    timestamp := timestamp }

/-- Observable outcome of one call to the `process_customers` endpoint: the
HTTP response together with whether a background task was scheduled and
whether the input was persisted to the intermediate parquet artifact. -/
structure DispatchResult where
  response : MLResponse
  scheduledBackground : Bool
  persistedInput : Bool
  deriving Repr, DecidableEq

/-- Shallow embedding of `process_customers`: reject empty input, dispatch
to background when the row count strictly exceeds the configured threshold
(persisting the input and returning only a job id), otherwise run the whole
pipeline inline and return the complete result.  `job_id` stands for the
fresh identifier built from the clock and a random draw. -/
def process_customers (cfg : MLConfig) (be : MLBackend) (job_id timestamp : String)
    (customers : List Customer) : DispatchResult :=
  if customers.isEmpty then
    { response := { success := false, message := "No customer rows supplied", data := none }
      scheduledBackground := false
      persistedInput := false }
  else if customers.length > cfg.largeThreshold then
    { response :=
        { success := true
          message := "Dispatched background job " ++ job_id
          data := some (.job job_id) }
      scheduledBackground := true
      persistedInput := true }
  else
    { response :=
        { success := true
          message := "Processed successfully"
          data := some (.result (runPipeline cfg be timestamp customers)) }
      scheduledBackground := false
      persistedInput := false }

/-- Observable effects of one run of the background task. -/
structure BackgroundRun where
  resultSaved : Bool
  removeAttempted : Bool
  inputDeleted : Bool
  exceptionPropagated : Bool
  deriving Repr, DecidableEq

/-- Shallow embedding of the control flow of `process_customers_background`
(lines 470-491).  `pipelineSucceeds` abstracts whether the straight-line
region from `pd.read_parquet` through `json.dump` raises; `removeSucceeds`
abstracts whether `os.remove` raises.  The `os.remove` call sits inside the
outer `try`, directly after the result is saved, wrapped in an inner
`try/except: pass`; the outer `except` only logs. -/
def process_customers_background (pipelineSucceeds removeSucceeds : Bool) : BackgroundRun :=
  if pipelineSucceeds then
    { resultSaved := true
      removeAttempted := true
      inputDeleted := removeSucceeds
      exceptionPropagated := false }
  else
    { resultSaved := false
      removeAttempted := false
      inputDeleted := false
      exceptionPropagated := false }

/-! Concrete instances used to evaluate the development on small inputs. -/

/-- Concrete ML backend for evaluating the pipeline on small datasets: a
single-cluster clusterer, the identity training sampler, and a two-class
sklearn model that always reports probability 0 for class 1. -/
def defaultBackend : MLBackend where
  sklearnAvailable := true
  clusterLabels := fun df => df.map (fun _ => 0)
  trainSampler := fun X y => (X, y)
  fitChurn := fun _ _ => .sklearn (fun _ => [1, 0]) 2

/-- Single customer row for exercising the one-row dataset. -/
def singleRowCustomer : Customer where
  customer_id := "c1"
  company_name := "Solo Co"
  industry := "Unknown"
  total_spent := 100
  engagement_score := 50
  purchase_frequency := 1
  days_since_last_purchase := 10

/-- Two-row dataset: one at-risk customer and one healthy customer. -/
def wCustomerA : Customer where
  customer_id := "A"
  company_name := "Acme"
  industry := "Tech"
  total_spent := 0
  engagement_score := 20
  purchase_frequency := 0
  days_since_last_purchase := 200

/-- Second row of the two-row dataset. -/
def wCustomerB : Customer where
  customer_id := "B"
  company_name := "Beta"
  industry := "Retail"
  total_spent := 100
  engagement_score := 100
  purchase_frequency := 5
  days_since_last_purchase := 0

/-- The two-row dataset. -/
def wCustomers : List Customer := [wCustomerA, wCustomerB]

/-- Feature table of the two-row dataset. -/
def wDF : List FeatureRow := create_advanced_features wCustomers

/-- Naming rule as asserted by the specification for C4: identical to
`get_segment_name` except that the two spend-percentile comparisons use the
DATASET-wide 70th/50th percentiles of `total_spent` instead of the
segment's own.  Kept only to compare against the source behaviour. -/
def datasetWideSegmentName (dataset_spents : List ℚ) (segment_data : List FeatureRow) : String :=
  let avg_value := mean (segment_data.map (·.total_spent))
  let avg_engagement := mean (segment_data.map (·.engagement_score))
  if avg_value > quantile dataset_spents 0.7 ∧ avg_engagement > 80 then "High Value Champions"
  else if avg_value > quantile dataset_spents 0.5 ∧ avg_engagement > 60 then "Loyal Customers"
  else if avg_engagement < 40 ∨
      mean (segment_data.map (fun r => (r.days_since_last_purchase : ℚ))) > 180 then "At Risk"
  else "Growth Potential"

/-- Naming decision procedure of the amended C4: compare the segment's mean
spend against the segment's own 70th/50th spend percentiles and the
segment's mean engagement/recency against the fixed thresholds (80/60/40
engagement, 180-day recency), in the priority order High Value Champions,
Loyal Customers, At Risk, else Growth Potential. -/
def ownQuantileSegmentName (segment_data : List FeatureRow) : String :=
  let spents := segment_data.map (·.total_spent)
  let avg_value := mean spents
  let avg_engagement := mean (segment_data.map (·.engagement_score))
  if avg_value > quantile spents 0.7 ∧ avg_engagement > 80 then "High Value Champions"
  else if avg_value > quantile spents 0.5 ∧ avg_engagement > 60 then "Loyal Customers"
  else if avg_engagement < 40 ∨
      mean (segment_data.map (fun r => (r.days_since_last_purchase : ℚ))) > 180 then "At Risk"
  else "Growth Potential"

/-- Four-row dataset whose rule-based segmentation produces two segments:
two identically-spending engaged customers (segment 3) and two low-spend
low-engagement customers (segment 2). -/
def cexCustomers : List Customer :=
  [{ customer_id := "A1", company_name := "Alpha One", industry := "Tech",
     total_spent := 100, engagement_score := 90, purchase_frequency := 2,
     days_since_last_purchase := 10 },
   { customer_id := "A2", company_name := "Alpha Two", industry := "Tech",
     total_spent := 100, engagement_score := 90, purchase_frequency := 2,
     days_since_last_purchase := 10 },
   { customer_id := "B1", company_name := "Beta One", industry := "Retail",
     total_spent := 0, engagement_score := 20, purchase_frequency := 1,
     days_since_last_purchase := 10 },
   { customer_id := "B2", company_name := "Beta Two", industry := "Retail",
     total_spent := 0, engagement_score := 20, purchase_frequency := 1,
     days_since_last_purchase := 10 }]

/-- Feature table of the four-row dataset. -/
def cexDF : List FeatureRow := create_advanced_features cexCustomers

/-- Rows of the four-row dataset landing in rule-based segment 3. -/
def cexGroupA : List FeatureRow := segmentRows cexDF (cexDF.map get_rule_based_segment) 3

/-! Theorems. -/

/-- Claim C7, counterexample: when the processing region fails (and even
though deleting the artifact would have succeeded), the background task
never attempts to delete the intermediate parquet input — deletion does not
happen on every exit path. -/
theorem background_cleanup_cex :
    (process_customers_background false true).removeAttempted = false ∧
    (process_customers_background false true).inputDeleted = false := by
  constructor <;> rfl

/-- Claim C7 (amended): the background task never propagates an exception;
the deletion of the intermediate parquet input is attempted exactly on the
success path (where a deletion failure is swallowed), and on a processing
failure the artifact is left in place. -/
theorem background_cleanup_amended (pipelineSucceeds removeSucceeds : Bool) :
    (process_customers_background pipelineSucceeds removeSucceeds).exceptionPropagated = false ∧
    (process_customers_background pipelineSucceeds removeSucceeds).removeAttempted =
      pipelineSucceeds ∧
    (process_customers_background pipelineSucceeds removeSucceeds).inputDeleted =
      (pipelineSucceeds && removeSucceeds) := by
  cases pipelineSucceeds <;> cases removeSucceeds <;> exact ⟨rfl, rfl, rfl⟩

/-- Claim C8: with a positive configured threshold, a dataset of exactly the
threshold size is processed synchronously and the response carries the
complete pipeline result (nothing scheduled, nothing persisted), while a
dataset of threshold+1 rows is persisted and scheduled for background
processing and the response carries only the job id. -/
theorem dispatch_threshold_boundary (cfg : MLConfig) (be : MLBackend)
    (job_id ts job_id2 ts2 : String) (cs csBig : List Customer)
    (hpos : 0 < cfg.largeThreshold)
    (hcs : cs.length = cfg.largeThreshold)
    (hbig : csBig.length = cfg.largeThreshold + 1) :
    process_customers cfg be job_id ts cs =
      { response :=
          { success := true
            message := "Processed successfully"
            data := some (.result (runPipeline cfg be ts cs)) }
        scheduledBackground := false
        persistedInput := false } ∧
    process_customers cfg be job_id2 ts2 csBig =
      { response :=
          { success := true
            message := "Dispatched background job " ++ job_id2
            data := some (.job job_id2) }
        scheduledBackground := true
        persistedInput := true } := by
  constructor
  · have hne : cs.isEmpty = false := by
      cases cs with
      | nil => simp at hcs; omega
      | cons a t => rfl
    rw [process_customers, hne]
    simp only [Bool.false_eq_true, if_false]
    rw [if_neg (by omega)]
  · have hne : csBig.isEmpty = false := by
      cases csBig with
      | nil => simp at hbig
      | cons a t => rfl
    rw [process_customers, hne]
    simp only [Bool.false_eq_true, if_false]
    rw [if_pos (by omega)]

/-- Witness for C8 at threshold 1: the one-row dataset runs synchronously,
the two-row dataset is dispatched to background. -/
theorem dispatch_threshold_boundary_witness :
    (0 < (1 : ℕ) ∧ [wCustomerA].length = 1 ∧ wCustomers.length = 1 + 1) ∧
    (process_customers { trainSampleSize := 10000, largeThreshold := 1 } defaultBackend
        "j1" "t1" [wCustomerA] =
      { response :=
          { success := true
            message := "Processed successfully"
            data := some (.result (runPipeline { trainSampleSize := 10000, largeThreshold := 1 }
              defaultBackend "t1" [wCustomerA])) }
        scheduledBackground := false
        persistedInput := false } ∧
     process_customers { trainSampleSize := 10000, largeThreshold := 1 } defaultBackend
        "j2" "t2" wCustomers =
      { response :=
          { success := true
            message := "Dispatched background job j2"
            data := some (.job "j2") }
        scheduledBackground := true
        persistedInput := true }) :=
  ⟨⟨by decide, by decide, by decide⟩,
    dispatch_threshold_boundary { trainSampleSize := 10000, largeThreshold := 1 } defaultBackend
      "j1" "t1" "j2" "t2" [wCustomerA] wCustomers (by decide) (by decide) (by decide)⟩

/-- Scoring the empty batch yields the empty output, on both model branches. -/
lemma predict_churn_model_nil (model : ChurnModel) : predict_churn_model model [] = [] := by
  cases model with
  | xgboost raw => rfl
  | sklearn proba nClasses =>
      simp only [predict_churn_model]
      split <;> rfl

/-- Per-row scoring distributes over concatenation of batches, on both model
branches. -/
lemma predict_churn_model_append (model : ChurnModel) (X Y : List FeatureRow) :
    predict_churn_model model (X ++ Y) =
      predict_churn_model model X ++ predict_churn_model model Y := by
  cases model with
  | xgboost raw => exact List.map_append _ X Y
  | sklearn proba nClasses =>
      simp only [predict_churn_model]
      split
      · exact List.map_append _ X Y
      · rw [List.length_append, List.replicate_add]

/-- Batched scoring with any positive batch size agrees with single-shot
scoring. -/
lemma batchedPredict_eq_predict (model : ChurnModel) (B : ℕ) (hB : B ≠ 0) :
    ∀ X : List FeatureRow, batchedPredict model B X = predict_churn_model model X := by
  have main : ∀ (n : ℕ) (X : List FeatureRow), X.length ≤ n →
      batchedPredict model B X = predict_churn_model model X := by
    intro n
    induction n with
    | zero =>
        intro X hX
        have : X = [] := by
          cases X with
          | nil => rfl
          | cons a t => simp at hX
        subst this
        rw [batchedPredict, predict_churn_model_nil]
    | succ n ih =>
        intro X hX
        cases X with
        | nil => rw [batchedPredict, predict_churn_model_nil]
        | cons x xs =>
            have hlen : ((x :: xs).drop B).length ≤ n := by
              simp only [List.length_cons] at hX
              simp only [List.length_drop, List.length_cons]
              omega
            rw [batchedPredict, dif_neg hB]
            rw [ih ((x :: xs).drop B) hlen]
            rw [← predict_churn_model_append, List.take_append_drop]
  intro X
  exact main X.length X le_rfl

/-- Claim C3: scoring the full population in fixed-size batches of 50000 and
concatenating the per-batch outputs yields, row for row, exactly the
probabilities of a single call to `predict_churn_model`, for every trained
model and every feature table. -/
theorem batched_inference_transparent (model : ChurnModel) (X : List FeatureRow) :
    batchedPredict model 50000 X = predict_churn_model model X :=
  batchedPredict_eq_predict model 50000 (by norm_num) X

/-- Every member of a list is at least its `min?`. -/
lemma min?_le_of_mem_rat {l : List ℚ} {a b : ℚ} (h : l.min? = some a) (hb : b ∈ l) : a ≤ b :=
  (List.le_min?_iff (fun _ _ _ => le_min_iff) h).mp le_rfl b hb

/-- Every member of a list is at most its `max?`. -/
lemma le_max?_of_mem_rat {l : List ℚ} {a b : ℚ} (h : l.max? = some a) (hb : b ∈ l) : b ≤ a :=
  (List.max?_le_iff (fun _ _ _ => max_le_iff) h).mp le_rfl b hb

/-- The value of `min?` is attained by some member. -/
lemma min?_mem_rat {l : List ℚ} {a : ℚ} (h : l.min? = some a) : a ∈ l :=
  List.min?_mem min_choice h

/-- The value of `max?` is attained by some member. -/
lemma max?_mem_rat {l : List ℚ} {a : ℚ} (h : l.max? = some a) : a ∈ l :=
  List.max?_mem max_choice h

/-- The min–max normalised spend of any member of the column lies in [0,1]. -/
lemma datasetValueScore_mem_bounds {spents : List ℚ} {x : ℚ} (hx : x ∈ spents) :
    0 ≤ datasetValueScore spents x ∧ datasetValueScore spents x ≤ 1 := by
  rcases hmn : spents.min? with _ | mn
  · rw [List.min?_eq_none_iff] at hmn
    subst hmn
    simp at hx
  rcases hmx : spents.max? with _ | mx
  · rw [List.max?_eq_none_iff] at hmx
    subst hmx
    simp at hx
  have hmnx : mn ≤ x := min?_le_of_mem_rat hmn hx
  have hxmx : x ≤ mx := le_max?_of_mem_rat hmx hx
  rw [datasetValueScore, hmn, hmx]
  by_cases heq : mx = mn
  · simp [heq]
  · have hlt : mn < mx := lt_of_le_of_ne (hmnx.trans hxmx) (Ne.symm heq)
    simp only [heq, if_false]
    constructor
    · exact div_nonneg (by linarith) (by linarith)
    · rw [div_le_one (by linarith)]
      linarith

/-- Claim C5: when `total_spent` is constant dataset-wide, every row's
`value_score` is 0; otherwise each row's `value_score` equals
`(total_spent - min) / (max - min)`, lies in [0,1], is 0 exactly on a
minimum-spend row and 1 on a maximum-spend row, and rows attaining 0 and 1
exist. -/
theorem value_score_minmax (customers : List Customer) (mn mx : ℚ)
    (hmn : (customers.map (·.total_spent)).min? = some mn)
    (hmx : (customers.map (·.total_spent)).max? = some mx) :
    (mn = mx → ∀ r ∈ create_advanced_features customers, r.value_score = 0) ∧
    (mn ≠ mx →
      (∀ r ∈ create_advanced_features customers,
        r.value_score = (r.total_spent - mn) / (mx - mn) ∧
        0 ≤ r.value_score ∧ r.value_score ≤ 1 ∧
        (r.total_spent = mn → r.value_score = 0) ∧
        (r.total_spent = mx → r.value_score = 1)) ∧
      (∃ r ∈ create_advanced_features customers, r.value_score = 0) ∧
      (∃ r ∈ create_advanced_features customers, r.value_score = 1)) := by
  have hfields : ∀ r ∈ create_advanced_features customers,
      r.value_score = datasetValueScore (customers.map (·.total_spent)) r.total_spent ∧
      r.total_spent ∈ customers.map (·.total_spent) := by
    intro r hr
    rw [create_advanced_features, List.mem_map] at hr
    obtain ⟨c, hc, hceq⟩ := hr
    subst hceq
    exact ⟨rfl, List.mem_map.mpr ⟨c, hc, rfl⟩⟩
  constructor
  · intro heq r hr
    obtain ⟨hv, _⟩ := hfields r hr
    rw [hv]
    simp only [datasetValueScore, hmn, hmx]
    rw [if_pos heq.symm]
  · intro hne
    have hlt : mn < mx := by
      have h1 : mn ≤ mx := min?_le_of_mem_rat hmn (max?_mem_rat hmx)
      exact lt_of_le_of_ne h1 hne
    have hmain : ∀ r ∈ create_advanced_features customers,
        r.value_score = (r.total_spent - mn) / (mx - mn) ∧
        0 ≤ r.value_score ∧ r.value_score ≤ 1 ∧
        (r.total_spent = mn → r.value_score = 0) ∧
        (r.total_spent = mx → r.value_score = 1) := by
      intro r hr
      obtain ⟨hv, hmem⟩ := hfields r hr
      have heqn : r.value_score = (r.total_spent - mn) / (mx - mn) := by
        rw [hv]
        simp only [datasetValueScore, hmn, hmx]
        rw [if_neg (Ne.symm hne)]
      refine ⟨heqn, ?_, ?_, ?_, ?_⟩
      · rw [heqn]
        exact div_nonneg (by linarith [min?_le_of_mem_rat hmn hmem]) (by linarith)
      · rw [heqn, div_le_one (by linarith)]
        linarith [le_max?_of_mem_rat hmx hmem]
      · intro h0
        rw [heqn, h0]
        simp
      · intro h1
        rw [heqn, h1, div_self (by linarith)]
    refine ⟨hmain, ?_, ?_⟩
    · obtain ⟨c, hc, hcs⟩ := List.mem_map.mp (min?_mem_rat hmn)
      refine ⟨_, List.mem_map.mpr ⟨c, hc, rfl⟩, ?_⟩
      have hr := hmain _ (List.mem_map.mpr ⟨c, hc, rfl⟩)
      exact hr.2.2.2.1 hcs
    · obtain ⟨c, hc, hcs⟩ := List.mem_map.mp (max?_mem_rat hmx)
      refine ⟨_, List.mem_map.mpr ⟨c, hc, rfl⟩, ?_⟩
      have hr := hmain _ (List.mem_map.mpr ⟨c, hc, rfl⟩)
      exact hr.2.2.2.2 hcs

/-- Witness for C5 on the two-row dataset (spends 0 and 100). -/
theorem value_score_minmax_witness :
    ((wCustomers.map (·.total_spent)).min? = some 0 ∧
     (wCustomers.map (·.total_spent)).max? = some 100) ∧
    ((0 : ℚ) = 100 → ∀ r ∈ create_advanced_features wCustomers, r.value_score = 0) ∧
    ((0 : ℚ) ≠ 100 →
      (∀ r ∈ create_advanced_features wCustomers,
        r.value_score = (r.total_spent - 0) / (100 - 0) ∧
        0 ≤ r.value_score ∧ r.value_score ≤ 1 ∧
        (r.total_spent = 0 → r.value_score = 0) ∧
        (r.total_spent = 100 → r.value_score = 1)) ∧
      (∃ r ∈ create_advanced_features wCustomers, r.value_score = 0) ∧
      (∃ r ∈ create_advanced_features wCustomers, r.value_score = 1)) :=
  ⟨⟨by decide, by decide⟩, value_score_minmax wCustomers 0 100 (by decide) (by decide)⟩

/-- Clipping into [0, 365] indeed lands in [0, 365]. -/
lemma clipQ_bounds (x : ℚ) : 0 ≤ clipQ 0 365 x ∧ clipQ 0 365 x ≤ 365 := by
  unfold clipQ
  constructor
  · exact le_min (by norm_num) (le_max_left 0 x)
  · exact min_le_left 365 _

/-- Claim C10: for every feature row of the pipeline whose raw engagement
score lies in [0,100] (days since last purchase and the derived
recent-activity flag and value score arbitrary, as produced by the feature
builder), the upsell score lies in the closed interval [0,1]. -/
theorem upsell_score_bounded (customers : List Customer) (r : FeatureRow)
    (hr : r ∈ create_advanced_features customers)
    (h0 : 0 ≤ r.engagement_score) (h100 : r.engagement_score ≤ 100) :
    0 ≤ upsell_score_row r ∧ upsell_score_row r ≤ 1 := by
  have hv : 0 ≤ r.value_score ∧ r.value_score ≤ 1 := by
    rw [create_advanced_features, List.mem_map] at hr
    obtain ⟨c, hc, hceq⟩ := hr
    subst hceq
    exact datasetValueScore_mem_bounds (List.mem_map.mpr ⟨c, hc, rfl⟩)
  have ha : (0 : ℚ) ≤ (r.recent_activity : ℚ) ∧ (r.recent_activity : ℚ) ≤ 1 := by
    rw [create_advanced_features, List.mem_map] at hr
    obtain ⟨c, hc, hceq⟩ := hr
    subst hceq
    by_cases hrec : c.days_since_last_purchase < (90 : ℤ) <;> simp [hrec]
  have hc365 := clipQ_bounds ((r.days_since_last_purchase : ℚ))
  have hd : 0 ≤ 1 - clipQ 0 365 (r.days_since_last_purchase : ℚ) / 365 ∧
      1 - clipQ 0 365 (r.days_since_last_purchase : ℚ) / 365 ≤ 1 := by
    constructor
    · have : clipQ 0 365 (r.days_since_last_purchase : ℚ) / 365 ≤ 1 := by
        rw [div_le_one (by norm_num)]
        exact hc365.2
      linarith
    · have : 0 ≤ clipQ 0 365 (r.days_since_last_purchase : ℚ) / 365 :=
        div_nonneg hc365.1 (by norm_num)
      linarith
  rw [upsell_score_row]
  constructor
  · nlinarith [hv.1, ha.1, hd.1, h0]
  · nlinarith [hv.2, ha.2, hd.2, h100]


/-- Witness for C10 on the first row of the two-row dataset. -/
theorem upsell_score_bounded_witness :
    (wDF.getD 0 default ∈ wDF ∧ 0 ≤ (wDF.getD 0 default).engagement_score ∧
      (wDF.getD 0 default).engagement_score ≤ 100) ∧
    (0 ≤ upsell_score_row (wDF.getD 0 default) ∧
      upsell_score_row (wDF.getD 0 default) ≤ 1) :=
  have hmem : wDF.getD 0 default ∈ wDF := by
    rw [List.getD_eq_getElem _ _ (by decide)]
    exact List.getElem_mem _
  ⟨⟨hmem, by decide, by decide⟩,
    upsell_score_bounded wCustomers (wDF.getD 0 default) hmem (by decide) (by decide)⟩

/-- Claim C6: the upsell detector returns exactly the scored rows whose
upsell score strictly exceeds 0.6 (a permutation of the filtered scored
table, mapped to output records), listed in non-increasing upsell-score
order, and every returned opportunity has score strictly above 0.6. -/
theorem upsell_opportunities_exact (df : List FeatureRow) :
    (detect_upsell_opportunities_large df).Perm
      (((df.map (fun r => (r, upsell_score_row r))).filter
          (fun p => decide (p.2 > 0.6))).map mkOpportunity) ∧
    (detect_upsell_opportunities_large df).Pairwise
      (fun a b => b.upsell_score ≤ a.upsell_score) ∧
    ∀ o ∈ detect_upsell_opportunities_large df, o.upsell_score > 0.6 := by
  simp only [detect_upsell_opportunities_large]
  refine ⟨?_, ?_, ?_⟩
  · exact List.Perm.map mkOpportunity (List.perm_insertionSort scoreDesc _)
  · exact List.Pairwise.map mkOpportunity (fun a b hab => hab)
      (List.sorted_insertionSort scoreDesc _)
  · intro o ho
    rw [List.mem_map] at ho
    obtain ⟨p, hp, rfl⟩ := ho
    rw [(List.perm_insertionSort scoreDesc _).mem_iff, List.mem_filter] at hp
    exact of_decide_eq_true hp.2

/-- Number of occurrences in a flattened list of lists is the sum of the
per-list occurrence counts. -/
lemma count_flatten_eq_sum (L : List (List String)) (a : String) :
    L.flatten.count a = (L.map (List.count a)).sum := by
  induction L with
  | nil => simp
  | cons h t ih => simp [List.count_append, ih]

/-- A word occurring nowhere is contained in none of the lists. -/
lemma countP_contains_eq_zero (L : List (List String)) (a : String)
    (h : ∀ l ∈ L, a ∉ l) : L.countP (fun l => decide (a ∈ l)) = 0 := by
  rw [List.countP_eq_zero]
  intro l hl
  simpa using h l hl

/-- A word occurring exactly once across the flattened lists is contained in
exactly one of them. -/
lemma countP_contains_of_count_one (L : List (List String)) (a : String)
    (h : L.flatten.count a = 1) : L.countP (fun l => decide (a ∈ l)) = 1 := by
  induction L with
  | nil => simp at h
  | cons l t ih =>
      rw [List.flatten_cons, List.count_append] at h
      by_cases hl : a ∈ l
      · have hl1 : 1 ≤ l.count a := List.one_le_count_iff.mpr hl
        have ht0 : (t.flatten.count a) = 0 := by omega
        have hnone : ∀ l' ∈ t, a ∉ l' := by
          intro l' hl' hmem
          have : a ∈ t.flatten := List.mem_flatten.mpr ⟨l', hl', hmem⟩
          rw [← List.count_pos_iff] at this
          omega
        rw [List.countP_cons_of_pos _ _ (by simpa using hl),
          countP_contains_eq_zero t a hnone]
      · have hcl : l.count a = 0 := List.count_eq_zero.mpr hl
        rw [List.countP_cons_of_neg _ _ (by simpa using hl)]
        exact ih (by omega)

/-- Grouping a list of keyed pairs by a duplicate-free list of keys covering
every occurring key, then flattening, permutes the original list. -/
lemma groups_flatten_perm {α β : Type} [DecidableEq β] (ks : List β) :
    ∀ ps : List (α × β), ks.Nodup → (∀ p ∈ ps, p.2 ∈ ks) →
      (ks.map (fun k => ps.filter (fun p => decide (p.2 = k)))).flatten.Perm ps := by
  induction ks with
  | nil =>
      intro ps _ hcov
      cases ps with
      | nil => simp
      | cons p t => exact absurd (hcov p (List.mem_cons_self p t)) (by simp)
  | cons k ks ih =>
      intro ps hnd hcov
      have hkn : k ∉ ks := (List.nodup_cons.mp hnd).1
      have hnd' : ks.Nodup := (List.nodup_cons.mp hnd).2
      rw [List.map_cons, List.flatten_cons]
      have hrest : ∀ k' ∈ ks, ps.filter (fun p => decide (p.2 = k')) =
          (ps.filter (fun p => !decide (p.2 = k))).filter (fun p => decide (p.2 = k')) := by
        intro k' hk'
        rw [List.filter_filter]
        apply List.filter_congr
        intro p _
        by_cases hpk : p.2 = k'
        · have hkk : k' ≠ k := fun hkk => hkn (hkk ▸ hk')
          simp [hpk, hkk]
        · simp [hpk]
      have hmapeq : ks.map (fun k' => ps.filter (fun p => decide (p.2 = k'))) =
          ks.map (fun k' => (ps.filter (fun p => !decide (p.2 = k))).filter
            (fun p => decide (p.2 = k'))) :=
        List.map_congr_left hrest
      rw [hmapeq]
      have hcov' : ∀ p ∈ ps.filter (fun p => !decide (p.2 = k)), p.2 ∈ ks := by
        intro p hp
        rw [List.mem_filter] at hp
        have := hcov p hp.1
        rw [List.mem_cons] at this
        rcases this with h | h
        · exfalso
          have : ¬ (p.2 = k) := by simpa using hp.2
          exact this h
        · exact h
      have hperm := ih (ps.filter (fun p => !decide (p.2 = k))) hnd' hcov'
      exact List.Perm.trans (hperm.append_left _) (List.filter_append_perm _ ps)

/-- Claim C2: the segment list returned by
`perform_customer_segmentation_large` partitions the input rows exactly on
either path: the concatenation of all member lists is a permutation of the
input `customer_id` column, and when the input ids are distinct, every input
id occurs exactly once across the member lists and in exactly one segment. -/
theorem segmentation_partitions (be : MLBackend) (force_rule_based : Bool)
    (df : List FeatureRow)
    (hlen : (be.clusterLabels df).length = df.length) (hne : df ≠ []) :
    ((perform_customer_segmentation_large be force_rule_based df).map
        (·.customers)).flatten.Perm (df.map (·.customer_id)) ∧
    ((df.map (·.customer_id)).Nodup →
      ∀ cid ∈ df.map (·.customer_id),
        ((perform_customer_segmentation_large be force_rule_based df).map
          (·.customers)).flatten.count cid = 1 ∧
        (perform_customer_segmentation_large be force_rule_based df).countP
          (fun s => decide (cid ∈ s.customers)) = 1) := by
  rw [perform_customer_segmentation_large]
  set labels :=
    if df.length < 50 ∨ force_rule_based = true ∨ ¬be.sklearnAvailable = true
    then df.map get_rule_based_segment
    else be.clusterLabels df with hlabels
  have hlab : labels.length = df.length := by
    rw [hlabels]
    split
    · exact List.length_map df _
    · exact hlen
  have hperm : ((buildSegmentSummaries df labels).map (·.customers)).flatten.Perm
      (df.map (·.customer_id)) := by
    have hmc : (buildSegmentSummaries df labels).map (·.customers) =
        (sortedSegmentIds labels).map
          (fun sid => ((df.zip labels).filter (fun p => decide (p.2 = sid))).map
            (fun p => p.1.customer_id)) := by
      rw [buildSegmentSummaries, List.map_map]
      apply List.map_congr_left
      intro sid _
      simp [segmentRows, List.map_map]
    rw [hmc]
    have hflat : ((sortedSegmentIds labels).map
        (fun sid => ((df.zip labels).filter (fun p => decide (p.2 = sid))).map
          (fun p => p.1.customer_id))).flatten =
        (((sortedSegmentIds labels).map
          (fun sid => (df.zip labels).filter (fun p => decide (p.2 = sid)))).flatten).map
            (fun p => p.1.customer_id) := by
      rw [List.map_flatten, List.map_map]
      rfl
    rw [hflat]
    have hgroups := groups_flatten_perm (sortedSegmentIds labels) (df.zip labels)
      ((List.perm_insertionSort _ _).nodup_iff.mpr (List.nodup_dedup labels))
      (by
        intro p hp
        have h2 : p.2 ∈ labels := (List.of_mem_zip hp).2
        rw [sortedSegmentIds, (List.perm_insertionSort _ _).mem_iff]
        exact List.mem_dedup.mpr h2)
    have := hgroups.map (fun p => p.1.customer_id)
    refine this.trans ?_
    have hfst : (df.zip labels).map (fun p => p.1.customer_id) =
        df.map (·.customer_id) := by
      have : (df.zip labels).map (fun p => p.1.customer_id) =
          ((df.zip labels).map Prod.fst).map (·.customer_id) := by
        rw [List.map_map]
        rfl
      rw [this, List.map_fst_zip df labels (by omega)]
    rw [hfst]
  refine ⟨hperm, ?_⟩
  intro hnd cid hcid
  have hcount : ((buildSegmentSummaries df labels).map (·.customers)).flatten.count cid = 1 := by
    rw [hperm.count_eq]
    exact List.count_eq_one_of_mem hnd hcid
  refine ⟨hcount, ?_⟩
  have h1 := countP_contains_of_count_one _ _ hcount
  rw [List.countP_map] at h1
  exact h1

/-- Witness for C2 on the two-row dataset: the default backend's clusterer
labels every row, the dataset is non-empty, and the theorem's partition
conclusion holds there. -/
theorem segmentation_partitions_witness :
    ((defaultBackend.clusterLabels wDF).length = wDF.length ∧ wDF ≠ []) ∧
    (((perform_customer_segmentation_large defaultBackend false wDF).map
        (·.customers)).flatten.Perm (wDF.map (·.customer_id)) ∧
    ((wDF.map (·.customer_id)).Nodup →
      ∀ cid ∈ wDF.map (·.customer_id),
        ((perform_customer_segmentation_large defaultBackend false wDF).map
          (·.customers)).flatten.count cid = 1 ∧
        (perform_customer_segmentation_large defaultBackend false wDF).countP
          (fun s => decide (cid ∈ s.customers)) = 1)) :=
  ⟨⟨by decide, by decide⟩,
    segmentation_partitions defaultBackend false wDF (by decide) (by decide)⟩

/-- Claim C4, counterexample: on the four-row dataset, the produced segment
of the two identically-spending engaged customers is named by the source
from the segment's own spend percentiles ("Growth Potential", since the
segment mean cannot strictly exceed its own 70th/50th percentile on constant
spend), while the dataset-wide rule asserted by the claim names it
"Loyal Customers". -/
theorem segment_name_cex :
    get_segment_name 3 cexGroupA ≠
      datasetWideSegmentName (cexDF.map (·.total_spent)) cexGroupA ∧
    get_segment_name 3 cexGroupA = "Growth Potential" ∧
    datasetWideSegmentName (cexDF.map (·.total_spent)) cexGroupA = "Loyal Customers" ∧
    (perform_customer_segmentation_large defaultBackend false cexDF).map (·.name) =
      ["At Risk", "Growth Potential"] := by
  with_unfolding_all decide

/-- Claim C4 (amended): the name of every non-empty produced segment is
determined by comparing the segment's mean `total_spent` against the
segment's own 70th and 50th percentiles of `total_spent`, and the segment's
mean engagement and recency against the fixed thresholds (engagement
80/60/40, recency 180 days), in the priority order High Value Champions,
Loyal Customers, At Risk, else Growth Potential. -/
theorem segment_name_rule (segment_id : ℤ) (segment_data : List FeatureRow)
    (hne : segment_data ≠ []) :
    get_segment_name segment_id segment_data = ownQuantileSegmentName segment_data := by
  have hempty : ¬(segment_data.isEmpty = true) := by
    simp [List.isEmpty_iff]
    exact hne
  rw [get_segment_name, ownQuantileSegmentName, if_neg hempty]

/-- Witness for the amended C4 on the produced segment of the four-row
dataset. -/
theorem segment_name_rule_witness :
    cexGroupA ≠ [] ∧
    get_segment_name 3 cexGroupA = ownQuantileSegmentName cexGroupA :=
  ⟨by with_unfolding_all decide,
    segment_name_rule 3 cexGroupA (by with_unfolding_all decide)⟩

/-! Groundwork for the churn-label claims: positional assignment, sorted
index lists, quantile bounds, and counting lemmas. -/

/-- Positional bulk assignment preserves length. -/
lemma setFrom_length (idxs : List ℕ) (v : ℕ) :
    ∀ (base : ℕ) (l : List ℕ), (setFrom base idxs v l).length = l.length := by
  intro base l
  induction l generalizing base with
  | nil => rfl
  | cons x xs ih => simp [setFrom, ih]

/-- Entry of a positional bulk assignment: the new value on the chosen
positions, the old entry elsewhere. -/
lemma setFrom_getD (idxs : List ℕ) (v : ℕ) :
    ∀ (l : List ℕ) (base j : ℕ), j < l.length →
      (setFrom base idxs v l).getD j 0 =
        if (base + j) ∈ idxs then v else l.getD j 0 := by
  intro l
  induction l with
  | nil => intro base j hj; simp at hj
  | cons x xs ih =>
      intro base j hj
      cases j with
      | zero => simp [setFrom]
      | succ j' =>
          have hj' : j' < xs.length := by simpa using hj
          have hrw : base + (j' + 1) = (base + 1) + j' := by omega
          simp only [setFrom, List.getD_cons_succ, hrw]
          exact ih (base + 1) j' hj'

/-- Every entry of a positional bulk assignment is the new value or an old
entry. -/
lemma setFrom_mem (idxs : List ℕ) (v : ℕ) :
    ∀ (base : ℕ) (l : List ℕ), ∀ x ∈ setFrom base idxs v l, x = v ∨ x ∈ l := by
  intro base l
  induction l generalizing base with
  | nil => intro x hx; simp [setFrom] at hx
  | cons y ys ih =>
      intro x hx
      rw [setFrom, List.mem_cons] at hx
      rcases hx with hx | hx
      · by_cases hb : base ∈ idxs
        · rw [if_pos hb] at hx
          exact Or.inl hx
        · rw [if_neg hb] at hx
          exact Or.inr (hx ▸ List.mem_cons_self y ys)
      · rcases ih (base + 1) x hx with h | h
        · exact Or.inl h
        · exact Or.inr (List.mem_cons_of_mem y h)

/-- A valid-position `getD` entry is a member. -/
lemma getD_mem_of_lt {l : List ℕ} {j : ℕ} (hj : j < l.length) : l.getD j 0 ∈ l := by
  rw [List.getD_eq_getElem _ _ hj]
  exact List.getElem_mem _

/-- A valid-position `getD` entry is a member (rational lists). -/
lemma getD_mem_of_lt_rat {l : List ℚ} {j : ℕ} (hj : j < l.length) : l.getD j 0 ∈ l := by
  rw [List.getD_eq_getElem _ _ hj]
  exact List.getElem_mem _

/-- A list of zeros and ones sums to at most its length. -/
lemma sum_le_length_of_le_one (l : List ℕ) (h : ∀ x ∈ l, x ≤ 1) : l.sum ≤ l.length := by
  induction l with
  | nil => simp
  | cons x xs ih =>
      have hx := h x (List.mem_cons_self x xs)
      have := ih (fun y hy => h y (List.mem_cons_of_mem x hy))
      simp only [List.sum_cons, List.length_cons]
      omega

/-- A list of zeros and ones summing to its length is all ones. -/
lemma all_one_of_sum_eq_length (l : List ℕ) (h1 : ∀ x ∈ l, x ≤ 1)
    (h : l.sum = l.length) : ∀ x ∈ l, x = 1 := by
  induction l with
  | nil => simp
  | cons x xs ih =>
      have hx := h1 x (List.mem_cons_self x xs)
      have hxs : ∀ y ∈ xs, y ≤ 1 := fun y hy => h1 y (List.mem_cons_of_mem x hy)
      have hsum := sum_le_length_of_le_one xs hxs
      simp only [List.sum_cons, List.length_cons] at h
      have hx1 : x = 1 := by omega
      have hxs1 := ih hxs (by omega)
      intro y hy
      rcases List.mem_cons.mp hy with rfl | hy
      · exact hx1
      · exact hxs1 y hy

/-- A list of all ones sums to its length. -/
lemma sum_eq_length_of_all_one (l : List ℕ) (h : ∀ x ∈ l, x = 1) : l.sum = l.length := by
  induction l with
  | nil => simp
  | cons x xs ih =>
      have hx := h x (List.mem_cons_self x xs)
      have := ih (fun y hy => h y (List.mem_cons_of_mem x hy))
      simp only [List.sum_cons, List.length_cons]
      omega

/-- The sorted index column is a permutation of the position range. -/
lemma sortedIdxBy_perm_range (r : ℚ × ℕ → ℚ × ℕ → Prop) [DecidableRel r]
    (scores : List ℚ) : (sortedIdxBy r scores).Perm (List.range scores.length) := by
  rw [sortedIdxBy]
  have h := (List.perm_insertionSort r (scores.zip (List.range scores.length))).map Prod.snd
  rwa [List.map_snd_zip scores _ (by simp)] at h

/-- Properties of the first `k` sorted positions: `k` entries, no
duplicates, all valid positions, and (when `k` is less than the number of
rows) some valid position left out. -/
lemma takeIdx_spec (r : ℚ × ℕ → ℚ × ℕ → Prop) [DecidableRel r] (scores : List ℚ)
    (k : ℕ) (hk : k ≤ scores.length) :
    ((sortedIdxBy r scores).take k).length = k ∧
    ((sortedIdxBy r scores).take k).Nodup ∧
    (∀ j ∈ (sortedIdxBy r scores).take k, j < scores.length) ∧
    (k < scores.length → ∃ j, j < scores.length ∧ j ∉ (sortedIdxBy r scores).take k) := by
  have hperm := sortedIdxBy_perm_range r scores
  have hlen : (sortedIdxBy r scores).length = scores.length := by
    rw [hperm.length_eq, List.length_range]
  have hnd : (sortedIdxBy r scores).Nodup :=
    hperm.nodup_iff.mpr (List.nodup_range scores.length)
  have hmemlt : ∀ j ∈ sortedIdxBy r scores, j < scores.length := by
    intro j hj
    have := hperm.mem_iff.mp hj
    simpa using this
  refine ⟨?_, hnd.sublist (List.take_sublist k _), ?_, ?_⟩
  · rw [List.length_take]
    omega
  · intro j hj
    exact hmemlt j (List.mem_of_mem_take hj)
  · intro hklt
    have hdroplen : ((sortedIdxBy r scores).drop k).length = scores.length - k := by
      rw [List.length_drop, hlen]
    have hdropne : (sortedIdxBy r scores).drop k ≠ [] := by
      intro hcon
      rw [hcon] at hdroplen
      simp at hdroplen
      omega
    obtain ⟨j, hj⟩ := List.exists_mem_of_ne_nil _ hdropne
    have hjfull : j ∈ sortedIdxBy r scores := List.mem_of_mem_drop hj
    refine ⟨j, hmemlt j hjfull, ?_⟩
    have hfullnd : ((sortedIdxBy r scores).take k ++ (sortedIdxBy r scores).drop k).Nodup := by
      rw [List.take_append_drop]
      exact hnd
    have hdisj := (List.nodup_append.mp hfullnd).2.2
    intro hjtake
    exact hdisj hjtake hj

/-- A predicate false from position `m` onwards is satisfied at most `m`
times. -/
lemma countP_le_of_false_from {α : Type} (S : List α) (p : α → Bool) (m : ℕ)
    (h : ∀ u, (hu : u < S.length) → m ≤ u → p (S.get ⟨u, hu⟩) = false) :
    S.countP p ≤ m := by
  have hsplit : S.countP p = (S.take m).countP p + (S.drop m).countP p := by
    rw [← List.countP_append, List.take_append_drop]
  have hdrop : (S.drop m).countP p = 0 := by
    rw [List.countP_eq_zero]
    intro a ha
    obtain ⟨⟨t, ht⟩, hteq⟩ := List.get_of_mem ha
    have htS : m + t < S.length := by
      rw [List.length_drop] at ht
      omega
    have hget : (S.drop m).get ⟨t, ht⟩ = S.get ⟨m + t, htS⟩ := by
      rw [List.get_eq_getElem, List.get_eq_getElem]
      simp [List.getElem_drop]
    rw [← hteq, hget, h (m + t) htS (by omega)]
    simp
  have htake : (S.take m).countP p ≤ m := by
    calc (S.take m).countP p ≤ (S.take m).length := List.countP_le_length p
      _ ≤ m := List.length_take_le m S
  omega

/-- Entries of a sorted list are monotone in the position. -/
lemma sorted_getD_mono (S : List ℚ) (hs : S.Sorted (· ≤ ·)) {i u : ℕ} (hiu : i ≤ u)
    (hu : u < S.length) : S.getD i 0 ≤ S.getD u 0 := by
  have hi : i < S.length := lt_of_le_of_lt hiu hu
  rw [List.getD_eq_getElem _ _ hi, List.getD_eq_getElem _ _ hu]
  rcases eq_or_lt_of_le hiu with rfl | hlt
  · exact le_rfl
  · exact List.pairwise_iff_getElem.mp hs i u hi hu hlt

/-- Structure of a pandas-style interpolated quantile of a non-empty column:
it interpolates between two valid positions of the sorted column, with an
interpolation weight in [0,1). -/
lemma quantile_spec (l : List ℚ) (hne : l ≠ []) (q : ℚ) (h0 : 0 ≤ q) (h1 : q ≤ 1) :
    0 ≤ Int.fract (q * ((l.length : ℚ) - 1)) ∧
    Int.fract (q * ((l.length : ℚ) - 1)) < 1 ∧
    (⌊q * ((l.length : ℚ) - 1)⌋).toNat ≤ (⌈q * ((l.length : ℚ) - 1)⌉).toNat ∧
    (⌈q * ((l.length : ℚ) - 1)⌉).toNat < l.length ∧
    quantile l q =
      (l.insertionSort (· ≤ ·)).getD ((⌊q * ((l.length : ℚ) - 1)⌋).toNat) 0 *
        (1 - Int.fract (q * ((l.length : ℚ) - 1))) +
      (l.insertionSort (· ≤ ·)).getD ((⌈q * ((l.length : ℚ) - 1)⌉).toNat) 0 *
        Int.fract (q * ((l.length : ℚ) - 1)) := by
  have hn : 0 < l.length := List.length_pos.mpr hne
  have hn1 : (1 : ℚ) ≤ (l.length : ℚ) := by exact_mod_cast hn
  have hpos0 : 0 ≤ q * ((l.length : ℚ) - 1) := mul_nonneg h0 (by linarith)
  have hposle : q * ((l.length : ℚ) - 1) ≤ (l.length : ℚ) - 1 := by
    calc q * ((l.length : ℚ) - 1) ≤ 1 * ((l.length : ℚ) - 1) :=
          mul_le_mul_of_nonneg_right h1 (by linarith)
      _ = (l.length : ℚ) - 1 := one_mul _
  have hfloor0 : 0 ≤ ⌊q * ((l.length : ℚ) - 1)⌋ := Int.floor_nonneg.mpr hpos0
  have hceil_le : ⌈q * ((l.length : ℚ) - 1)⌉ ≤ (l.length : ℤ) - 1 := by
    rw [Int.ceil_le]
    push_cast
    linarith
  refine ⟨Int.fract_nonneg _, Int.fract_lt_one _,
    Int.toNat_le_toNat (Int.floor_le_ceil _), ?_, ?_⟩
  · have h2 : (⌈q * ((l.length : ℚ) - 1)⌉).toNat ≤ ((l.length : ℤ) - 1).toNat :=
      Int.toNat_le_toNat hceil_le
    omega
  · have hcast : (((⌊q * ((l.length : ℚ) - 1)⌋).toNat : ℕ) : ℚ) =
        ((⌊q * ((l.length : ℚ) - 1)⌋ : ℤ) : ℚ) := by
      exact_mod_cast congrArg (fun z : ℤ => (z : ℚ)) (Int.toNat_of_nonneg hfloor0)
    simp only [quantile]
    rw [if_neg (by omega)]
    rw [hcast, Int.fract]
    ring

/-- A quantile of a non-empty column is at most any upper bound of the
column. -/
lemma quantile_le_of_forall_le (l : List ℚ) (hne : l ≠ []) (q : ℚ) (h0 : 0 ≤ q)
    (h1 : q ≤ 1) (b : ℚ) (hb : ∀ x ∈ l, x ≤ b) : quantile l q ≤ b := by
  obtain ⟨hf0, hf1, hlohi, hhi, heq⟩ := quantile_spec l hne q h0 h1
  have hSlen : (l.insertionSort (· ≤ ·)).length = l.length :=
    (List.perm_insertionSort _ l).length_eq
  have hloS : (⌊q * ((l.length : ℚ) - 1)⌋).toNat < (l.insertionSort (· ≤ ·)).length := by omega
  have hhiS : (⌈q * ((l.length : ℚ) - 1)⌉).toNat < (l.insertionSort (· ≤ ·)).length := by omega
  have ha : (l.insertionSort (· ≤ ·)).getD ((⌊q * ((l.length : ℚ) - 1)⌋).toNat) 0 ≤ b :=
    hb _ ((List.perm_insertionSort _ l).mem_iff.mp (getD_mem_of_lt_rat hloS))
  have hbv : (l.insertionSort (· ≤ ·)).getD ((⌈q * ((l.length : ℚ) - 1)⌉).toNat) 0 ≤ b :=
    hb _ ((List.perm_insertionSort _ l).mem_iff.mp (getD_mem_of_lt_rat hhiS))
  rw [heq]
  nlinarith [mul_nonneg (sub_nonneg.mpr ha) (by linarith : (0:ℚ) ≤ 1 - Int.fract (q * ((l.length : ℚ) - 1))),
    mul_nonneg (sub_nonneg.mpr hbv) hf0]

/-- A quantile of a non-empty column is at most the sorted column's entry at
the ceiling interpolation position. -/
lemma quantile_le_getD_hi (l : List ℚ) (hne : l ≠ []) (q : ℚ) (h0 : 0 ≤ q) (h1 : q ≤ 1) :
    quantile l q ≤
      (l.insertionSort (· ≤ ·)).getD ((⌈q * ((l.length : ℚ) - 1)⌉).toNat) 0 := by
  obtain ⟨hf0, hf1, hlohi, hhi, heq⟩ := quantile_spec l hne q h0 h1
  have hSlen : (l.insertionSort (· ≤ ·)).length = l.length :=
    (List.perm_insertionSort _ l).length_eq
  have hab : (l.insertionSort (· ≤ ·)).getD ((⌊q * ((l.length : ℚ) - 1)⌋).toNat) 0 ≤
      (l.insertionSort (· ≤ ·)).getD ((⌈q * ((l.length : ℚ) - 1)⌉).toNat) 0 :=
    sorted_getD_mono _ (List.sorted_insertionSort _ l) hlohi (by omega)
  rw [heq]
  nlinarith [mul_nonneg (sub_nonneg.mpr hab) (by linarith : (0:ℚ) ≤ 1 - Int.fract (q * ((l.length : ℚ) - 1)))]

/-- At most `⌈q·(n-1)⌉` entries of a column lie strictly below its
`q`-quantile. -/
lemma countP_lt_quantile_le (l : List ℚ) (hne : l ≠ []) (q : ℚ) (h0 : 0 ≤ q) (h1 : q ≤ 1) :
    l.countP (fun x => decide (x < quantile l q)) ≤ (⌈q * ((l.length : ℚ) - 1)⌉).toNat := by
  obtain ⟨hf0, hf1, hlohi, hhi, heq⟩ := quantile_spec l hne q h0 h1
  have hperm := List.perm_insertionSort (· ≤ ·) l
  have hSlen : (l.insertionSort (· ≤ ·)).length = l.length := hperm.length_eq
  have hq := quantile_le_getD_hi l hne q h0 h1
  rw [← hperm.countP_eq]
  apply countP_le_of_false_from
  intro u hu htu
  have hmono : (l.insertionSort (· ≤ ·)).getD ((⌈q * ((l.length : ℚ) - 1)⌉).toNat) 0 ≤
      (l.insertionSort (· ≤ ·)).getD u 0 :=
    sorted_getD_mono _ (List.sorted_insertionSort _ l) htu hu
  rw [List.getD_eq_getElem _ _ hu] at hmono
  rw [List.get_eq_getElem]
  simp only [decide_eq_false_iff_not, not_lt]
  exact le_trans hq hmono

/-- Ceiling of a natural number divided by ten, as natural division. -/
lemma ceil_natCast_div_ten (m : ℕ) : ⌈(m : ℚ) / 10⌉ = (((m + 9) / 10 : ℕ) : ℤ) := by
  have h1 : 10 * ((m + 9) / 10) ≤ m + 9 := by omega
  have h2 : m + 9 < 10 * ((m + 9) / 10) + 10 := by omega
  have hq1 : (10 : ℚ) * (((m + 9) / 10 : ℕ) : ℚ) ≤ (m : ℚ) + 9 := by exact_mod_cast h1
  have h3 : m ≤ 10 * ((m + 9) / 10) := by omega
  have hq3 : (m : ℚ) ≤ 10 * (((m + 9) / 10 : ℕ) : ℚ) := by exact_mod_cast h3
  have hcast : ((((m + 9) / 10 : ℕ) : ℤ) : ℚ) = (((m + 9) / 10 : ℕ) : ℚ) :=
    Int.cast_natCast _
  rw [Int.ceil_eq_iff, hcast]
  constructor
  · rw [sub_lt_iff_lt_add]
    rw [div_add' _ _ _ (by norm_num : (10:ℚ) ≠ 0), lt_div_iff (by norm_num : (0:ℚ) < 10)]
    linarith
  · rw [div_le_iff (by norm_num : (0:ℚ) < 10)]
    linarith

/-- The composite score column has one entry per row. -/
lemma churn_score_col_length (df : List FeatureRow) :
    (churn_score_col df).length = df.length := by
  simp [churn_score_col]

/-- The initial label column has one entry per row. -/
lemma initialChurnLabels_length (df : List FeatureRow) :
    (initialChurnLabels df).length = df.length := by
  simp [initialChurnLabels, churn_score_col]

/-- Initial labels are zeros and ones. -/
lemma initialChurnLabels_zero_or_one (df : List FeatureRow) :
    ∀ x ∈ initialChurnLabels df, x = 0 ∨ x = 1 := by
  intro x hx
  rw [initialChurnLabels, List.mem_map] at hx
  obtain ⟨s, _, rfl⟩ := hx
  by_cases h : s ≥ churn_threshold df <;> simp [h]

/-- The guard touches at least one row. -/
lemma churnGuardK_pos (n : ℕ) : 1 ≤ churnGuardK n := le_max_left 1 _

/-- The guard leaves at least one row untouched on datasets of two or more
rows. -/
lemma churnGuardK_lt (n : ℕ) (h2 : 2 ≤ n) : churnGuardK n < n := by
  have hdiv : n / 20 < n := Nat.div_lt_self (by omega) (by norm_num)
  exact max_lt (by omega) hdiv

/-- Flipping a non-trivial set of positions of a constant column to a
different value puts both values in the result. -/
lemma setFrom_both_classes (l : List ℕ) (idxs : List ℕ) (v w : ℕ)
    (hall : ∀ x ∈ l, x = w)
    (j₁ : ℕ) (hj₁ : j₁ < l.length) (hj₁in : j₁ ∈ idxs)
    (j₂ : ℕ) (hj₂ : j₂ < l.length) (hj₂out : j₂ ∉ idxs) :
    v ∈ setFrom 0 idxs v l ∧ w ∈ setFrom 0 idxs v l := by
  have hlen : (setFrom 0 idxs v l).length = l.length := setFrom_length idxs v 0 l
  constructor
  · have h := setFrom_getD idxs v l 0 j₁ hj₁
    rw [zero_add, if_pos hj₁in] at h
    have hm : (setFrom 0 idxs v l).getD j₁ 0 ∈ setFrom 0 idxs v l :=
      @getD_mem_of_lt (setFrom 0 idxs v l) j₁ (by omega)
    rwa [h] at hm
  · have h := setFrom_getD idxs v l 0 j₂ hj₂
    rw [zero_add, if_neg hj₂out] at h
    rw [hall _ (getD_mem_of_lt hj₂)] at h
    have hm : (setFrom 0 idxs v l).getD j₂ 0 ∈ setFrom 0 idxs v l :=
      @getD_mem_of_lt (setFrom 0 idxs v l) j₂ (by omega)
    rwa [h] at hm

/-- Claim C1 (amended to datasets of at least two rows): churn-label
generation — thresholding at the composite score's own 70th percentile
followed by the degeneracy guard — always produces both classes. -/
theorem churn_labels_two_classes (df : List FeatureRow) (h2 : 2 ≤ df.length) :
    1 ∈ churnLabels df ∧ 0 ∈ churnLabels df := by
  have hl0len : (initialChurnLabels df).length = df.length := initialChurnLabels_length df
  have hl0mem := initialChurnLabels_zero_or_one df
  have hk1 : 1 ≤ churnGuardK df.length := churnGuardK_pos _
  have hkn : churnGuardK df.length < df.length := churnGuardK_lt _ h2
  have hkle : churnGuardK df.length ≤ (churn_score_col df).length := by
    rw [churn_score_col_length]
    omega
  have hklt : churnGuardK df.length < (churn_score_col df).length := by
    rw [churn_score_col_length]
    omega
  obtain ⟨hI1len, hI1nd, hI1lt, hI1out⟩ :=
    takeIdx_spec descByScore (churn_score_col df) (churnGuardK df.length) hkle
  obtain ⟨hI2len, hI2nd, hI2lt, hI2out⟩ :=
    takeIdx_spec ascByScore (churn_score_col df) (churnGuardK df.length) hkle
  obtain ⟨jo1, hjo1, hjo1out⟩ := hI1out hklt
  obtain ⟨jo2, hjo2, hjo2out⟩ := hI2out hklt
  have hI1ne : (sortedIdxBy descByScore (churn_score_col df)).take (churnGuardK df.length) ≠ [] := by
    intro hcon
    rw [hcon] at hI1len
    simp at hI1len
    omega
  have hI2ne : (sortedIdxBy ascByScore (churn_score_col df)).take (churnGuardK df.length) ≠ [] := by
    intro hcon
    rw [hcon] at hI2len
    simp at hI2len
    omega
  obtain ⟨ji1, hji1⟩ := List.exists_mem_of_ne_nil _ hI1ne
  obtain ⟨ji2, hji2⟩ := List.exists_mem_of_ne_nil _ hI2ne
  have hji1lt : ji1 < df.length := by
    have := hI1lt ji1 hji1
    rwa [churn_score_col_length] at this
  have hji2lt : ji2 < df.length := by
    have := hI2lt ji2 hji2
    rwa [churn_score_col_length] at this
  have hjo1lt : jo1 < df.length := by rwa [churn_score_col_length] at hjo1
  have hjo2lt : jo2 < df.length := by rwa [churn_score_col_length] at hjo2
  simp only [churnLabels, nlargestIdx, nsmallestIdx]
  split_ifs with hs0 hsA hsB
  · -- no initial 1s, and the first guard's output is claimed all ones: impossible
    exfalso
    have hall0 : ∀ x ∈ initialChurnLabels df, x = 0 := List.sum_eq_zero_iff.mp hs0
    have hboth := setFrom_both_classes (initialChurnLabels df) _ 1 0 hall0
      ji1 (by omega) hji1 jo1 (by omega) hjo1out
    have hle1 : ∀ x ∈ setFrom 0
        ((sortedIdxBy descByScore (churn_score_col df)).take (churnGuardK df.length)) 1
        (initialChurnLabels df), x ≤ 1 := by
      intro x hx
      rcases setFrom_mem _ _ _ _ x hx with rfl | hx
      · exact le_rfl
      · rw [hall0 x hx]
        omega
    have hlenA : (setFrom 0
        ((sortedIdxBy descByScore (churn_score_col df)).take (churnGuardK df.length)) 1
        (initialChurnLabels df)).length = df.length := by
      rw [setFrom_length]
      omega
    have hallone := all_one_of_sum_eq_length _ hle1 (by rw [hlenA]; exact hsA)
    have := hallone 0 hboth.2
    omega
  · -- no initial 1s: the first guard creates both classes and the second
    -- guard does not fire
    have hall0 : ∀ x ∈ initialChurnLabels df, x = 0 := List.sum_eq_zero_iff.mp hs0
    exact setFrom_both_classes (initialChurnLabels df) _ 1 0 hall0
      ji1 (by omega) hji1 jo1 (by omega) hjo1out
  · -- every initial label is 1: the second guard creates both classes
    have hle1 : ∀ x ∈ initialChurnLabels df, x ≤ 1 := by
      intro x hx
      rcases hl0mem x hx with rfl | rfl <;> omega
    have hall1 : ∀ x ∈ initialChurnLabels df, x = 1 :=
      all_one_of_sum_eq_length _ hle1 (by rw [hl0len]; exact hsB)
    have hboth := setFrom_both_classes (initialChurnLabels df) _ 0 1 hall1
      ji2 (by omega) hji2 jo2 (by omega) hjo2out
    exact ⟨hboth.2, hboth.1⟩
  · -- mixed initial labels: both classes already present
    constructor
    · by_contra hno
      apply hs0
      rw [List.sum_eq_zero_iff]
      intro x hx
      rcases hl0mem x hx with rfl | rfl
      · rfl
      · exact absurd hx hno
    · by_contra hno
      apply hsB
      rw [← hl0len]
      apply sum_eq_length_of_all_one
      intro x hx
      rcases hl0mem x hx with rfl | rfl
      · exact absurd hx hno
      · rfl

/-- Claim C1, counterexample: on a one-row dataset every row is initially
labeled 1 (the threshold equals the single score), and the degeneracy guard
then flips the single row to 0, leaving a single-class, all-zero target. -/
theorem churn_labels_single_row_cex :
    churnLabels (create_advanced_features [singleRowCustomer]) = [0] ∧
    1 ∉ churnLabels (create_advanced_features [singleRowCustomer]) := by
  with_unfolding_all decide

/-- Witness for the amended C1 on the two-row dataset. -/
theorem churn_labels_two_classes_witness :
    2 ≤ wDF.length ∧ (1 ∈ churnLabels wDF ∧ 0 ∈ churnLabels wDF) :=
  ⟨by decide, churn_labels_two_classes wDF (by decide)⟩

/-- A composite churn score never exceeds 1 (the weights sum to 1). -/
lemma churn_score_row_le_one (q30 : ℚ) (r : FeatureRow) : churn_score_row q30 r ≤ 1 := by
  rw [churn_score_row]
  split_ifs <;> norm_num

/-- A row whose spend is not below the 30th percentile scores strictly below
1 (it misses the 0.1 summand). -/
lemma churn_score_row_lt_one_of_not_lowspend (q30 : ℚ) (r : FeatureRow)
    (h : ¬ r.total_spent < q30) : churn_score_row q30 r < 1 := by
  rw [churn_score_row, if_neg h]
  split_ifs <;> norm_num

/-- A row hitting all four risk conditions scores exactly 1. -/
lemma churn_score_row_eq_one (q30 : ℚ) (r : FeatureRow)
    (hdays : r.days_since_last_purchase > 180) (heng : r.engagement_score < 30)
    (hfreq : r.purchase_frequency = 0) (hspent : r.total_spent < q30) :
    churn_score_row q30 r = 1 := by
  rw [churn_score_row, if_pos hdays, if_pos heng, if_pos hfreq, if_pos hspent]
  norm_num

/-- The ascending pair order is monotone in the score component. -/
lemma ascByScore_fst_le {a b : ℚ × ℕ} (h : ascByScore a b) : a.1 ≤ b.1 := by
  rcases h with h | ⟨h, _⟩
  · exact le_of_lt h
  · exact le_of_eq h

/-- Counting the complement of a predicate. -/
lemma countP_not_eq_sub {α : Type} (l : List α) (p : α → Bool) :
    l.countP (fun a => !(p a)) = l.length - l.countP p := by
  induction l with
  | nil => simp
  | cons x xs ih =>
      have hle : xs.countP p ≤ xs.length := List.countP_le_length p
      rcases Bool.eq_false_or_eq_true (p x) with hx | hx <;>
        simp [List.countP_cons, hx, ih] <;> omega

/-- A quantile of a one-element column is that element. -/
lemma quantile_singleton (x q : ℚ) : quantile [x] q = x := by
  simp [quantile, List.insertionSort, List.orderedInsert]

/-- A position holding the maximal score 1 is never among the `k` smallest
positions when at least `k` entries lie strictly below 1. -/
lemma not_mem_nsmallestIdx (scores : List ℚ) (k i : ℕ) (hi : i < scores.length)
    (hscore : scores.getD i 0 = 1) (hcount : k ≤ scores.countP (fun s => decide (s < 1))) :
    i ∉ nsmallestIdx k scores := by
  intro hmem
  rw [nsmallestIdx, sortedIdxBy, ← List.map_take, List.mem_map] at hmem
  obtain ⟨pr, hprtake, hpr2⟩ := hmem
  have hSP : ((scores.zip (List.range scores.length)).insertionSort ascByScore).Perm
      (scores.zip (List.range scores.length)) := List.perm_insertionSort _ _
  have hPlen : (scores.zip (List.range scores.length)).length = scores.length := by simp
  have hSlen : ((scores.zip (List.range scores.length)).insertionSort ascByScore).length =
      scores.length := by rw [hSP.length_eq, hPlen]
  obtain ⟨⟨t, ht⟩, hteq⟩ := List.get_of_mem hprtake
  have htk : t < k := by
    have h := ht
    rw [List.length_take] at h
    omega
  have htS : t < ((scores.zip (List.range scores.length)).insertionSort ascByScore).length := by
    have h := ht
    rw [List.length_take] at h
    omega
  have hSt : ((scores.zip (List.range scores.length)).insertionSort ascByScore).get ⟨t, htS⟩ =
      pr := by
    rw [← hteq, List.get_eq_getElem, List.get_eq_getElem]
    simp [List.getElem_take]
  have hprP : pr ∈ scores.zip (List.range scores.length) :=
    hSP.mem_iff.mp (List.mem_of_mem_take hprtake)
  have hpr1 : pr.1 = 1 := by
    obtain ⟨⟨u, hu⟩, hueq⟩ := List.get_of_mem hprP
    have huS : u < scores.length := by omega
    have hPu : (scores.zip (List.range scores.length)).get ⟨u, hu⟩ =
        (scores.getD u 0, u) := by
      rw [List.get_eq_getElem, List.getD_eq_getElem _ _ huS]
      simp [List.getElem_zip]
    rw [hPu] at hueq
    have hu2 : u = i := by
      have := congrArg Prod.snd hueq
      simpa [hpr2] using this
    have := congrArg Prod.fst hueq
    simp only at this
    rw [← this, hu2, hscore]
  have hcnt : ((scores.zip (List.range scores.length)).insertionSort ascByScore).countP
      (fun p => decide (p.1 < 1)) = scores.countP (fun s => decide (s < 1)) := by
    rw [hSP.countP_eq]
    have h1 : (scores.zip (List.range scores.length)).countP (fun p => decide (p.1 < 1)) =
        ((scores.zip (List.range scores.length)).map Prod.fst).countP
          (fun s => decide (s < 1)) := by
      rw [List.countP_map]
      rfl
    rw [h1, List.map_fst_zip _ _ (by simp)]
  have hsorted : ((scores.zip (List.range scores.length)).insertionSort ascByScore).Pairwise
      ascByScore := List.sorted_insertionSort _ _
  have hle : ((scores.zip (List.range scores.length)).insertionSort ascByScore).countP
      (fun p => decide (p.1 < 1)) ≤ t := by
    apply countP_le_of_false_from
    intro u hu htu
    have h1le : (1 : ℚ) ≤
        (((scores.zip (List.range scores.length)).insertionSort ascByScore).get ⟨u, hu⟩).1 := by
      rcases eq_or_lt_of_le htu with rfl | hlt
      · rw [hSt, hpr1]
      · have hrel := List.pairwise_iff_getElem.mp hsorted t u htS hu hlt
        have := ascByScore_fst_le hrel
        rw [List.get_eq_getElem]
        calc (1 : ℚ) = pr.1 := hpr1.symm
          _ = _ := by rw [← hSt, List.get_eq_getElem]
          _ ≤ _ := this
    simp only [decide_eq_false_iff_not, not_lt]
    exact h1le
  omega

/-- Claim C9: a customer row with `days_since_last_purchase = 200`,
`engagement_score = 20`, `purchase_frequency = 0` and `total_spent` below the
dataset's 30th spend percentile has composite churn score exactly 1, and its
churn label is 1 after label generation and the degeneracy guard, prior to
training. -/
theorem churn_example_labeled_one (df : List FeatureRow) (i : ℕ) (hi : i < df.length)
    (hdays : (df.get ⟨i, hi⟩).days_since_last_purchase = 200)
    (heng : (df.get ⟨i, hi⟩).engagement_score = 20)
    (hfreq : (df.get ⟨i, hi⟩).purchase_frequency = 0)
    (hspent : (df.get ⟨i, hi⟩).total_spent < quantile (df.map (·.total_spent)) 0.3) :
    (churn_score_col df).getD i 0 = 1 ∧ (churnLabels df).getD i 0 = 1 := by
  have hilen : i < (df.map (·.total_spent)).length := by
    rw [List.length_map]
    exact hi
  -- the dataset has at least two rows, else no spend can be strictly below
  -- the 30th percentile
  have h2 : 2 ≤ df.length := by
    by_contra hlt
    push_neg at hlt
    have h1 : df.length = 1 := by omega
    obtain ⟨r, hr⟩ := List.length_eq_one.mp h1
    subst hr
    have hi0 : i = 0 := by omega
    subst hi0
    rw [show ([r].map (·.total_spent)) = [r.total_spent] from rfl,
      quantile_singleton] at hspent
    exact lt_irrefl _ hspent
  -- the composite score of row i is exactly 1
  have hscorelen : (churn_score_col df).length = df.length := churn_score_col_length df
  have hsc : (churn_score_col df).getD i 0 =
      churn_score_row (quantile (df.map (·.total_spent)) 0.3) (df.get ⟨i, hi⟩) := by
    rw [churn_score_col, List.getD_eq_getElem _ _ (by rw [List.length_map]; exact hi),
      List.getElem_map, List.get_eq_getElem]
  have hsc1 : (churn_score_col df).getD i 0 = 1 := by
    rw [hsc]
    exact churn_score_row_eq_one _ _ (by rw [hdays]; norm_num) (by rw [heng]; norm_num)
      hfreq hspent
  refine ⟨hsc1, ?_⟩
  -- every composite score is at most 1
  have hbound : ∀ x ∈ churn_score_col df, x ≤ 1 := by
    intro x hx
    rw [churn_score_col, List.mem_map] at hx
    obtain ⟨r, _, rfl⟩ := hx
    exact churn_score_row_le_one _ r
  -- the initial label of row i is 1
  have hscne : churn_score_col df ≠ [] := by
    intro hcon
    rw [hcon] at hscorelen
    simp at hscorelen
    omega
  have hthr : churn_threshold df ≤ 1 :=
    quantile_le_of_forall_le _ hscne _ (by norm_num) (by norm_num) 1 hbound
  have hl0len : (initialChurnLabels df).length = df.length := initialChurnLabels_length df
  have hl0 : (initialChurnLabels df).getD i 0 = 1 := by
    have hsc2 := hsc1
    rw [List.getD_eq_getElem _ _ (by omega : i < (churn_score_col df).length)] at hsc2
    rw [initialChurnLabels, List.getD_eq_getElem _ _ (by rw [List.length_map]; omega),
      List.getElem_map]
    rw [if_pos]
    rw [hsc2]
    exact hthr
  -- at least k rows score strictly below 1 (all rows at or above the 30th
  -- spend percentile do)
  have hcountk : churnGuardK df.length ≤
      (churn_score_col df).countP (fun s => decide (s < 1)) := by
    have hspentsne : df.map (·.total_spent) ≠ [] := by
      intro hcon
      rw [hcon] at hilen
      simp at hilen
    have hc := countP_lt_quantile_le (df.map (·.total_spent)) hspentsne 0.3
      (by norm_num) (by norm_num)
    rw [List.length_map] at hc
    have hcast : ((3 * (df.length - 1) : ℕ) : ℚ) = 3 * ((df.length : ℚ) - 1) := by
      rw [Nat.cast_mul, Nat.cast_sub (by omega)]
      push_cast
      ring
    have hqrw : (0.3 : ℚ) * ((df.length : ℚ) - 1) =
        ((3 * (df.length - 1) : ℕ) : ℚ) / 10 := by
      rw [hcast]
      ring
    rw [hqrw, ceil_natCast_div_ten, Int.toNat_natCast] at hc
    have harith : (3 * (df.length - 1) + 9) / 10 + churnGuardK df.length ≤ df.length := by
      rw [churnGuardK]
      omega
    have hmaplow : (df.map (·.total_spent)).countP
        (fun x => decide (x < quantile (df.map (·.total_spent)) 0.3)) =
        df.countP (fun r => decide (r.total_spent < quantile (df.map (·.total_spent)) 0.3)) := by
      rw [List.countP_map]
      rfl
    have hmono : df.countP
        (fun r => !(decide (r.total_spent < quantile (df.map (·.total_spent)) 0.3))) ≤
        df.countP (fun r => decide (churn_score_row (quantile (df.map (·.total_spent)) 0.3) r < 1)) := by
      apply List.countP_mono_left
      intro r _ hr
      simp only [Bool.not_eq_eq_eq_not, Bool.not_true, decide_eq_false_iff_not, not_lt] at hr
      simp only [decide_eq_true_eq]
      exact churn_score_row_lt_one_of_not_lowspend _ r (not_lt.mpr hr)
    have hnot := countP_not_eq_sub df
      (fun r => decide (r.total_spent < quantile (df.map (·.total_spent)) 0.3))
    have hcolcount : (churn_score_col df).countP (fun s => decide (s < 1)) =
        df.countP (fun r => decide (churn_score_row (quantile (df.map (·.total_spent)) 0.3) r < 1)) := by
      rw [churn_score_col, List.countP_map]
      rfl
    rw [hmaplow] at hc
    rw [hcolcount]
    omega
  have hnotmem : i ∉ nsmallestIdx (churnGuardK df.length) (churn_score_col df) :=
    not_mem_nsmallestIdx _ _ _ (by omega) hsc1 hcountk
  -- push through the two guards
  simp only [churnLabels]
  split_ifs with hs0 hsA hsB
  · rw [setFrom_getD _ _ _ 0 i (by rw [setFrom_length]; omega), zero_add, if_neg hnotmem,
      setFrom_getD _ _ _ 0 i (by omega), zero_add]
    by_cases hin : i ∈ nlargestIdx (churnGuardK df.length) (churn_score_col df)
    · rw [if_pos hin]
    · rw [if_neg hin]
      exact hl0
  · rw [setFrom_getD _ _ _ 0 i (by omega), zero_add]
    by_cases hin : i ∈ nlargestIdx (churnGuardK df.length) (churn_score_col df)
    · rw [if_pos hin]
    · rw [if_neg hin]
      exact hl0
  · rw [setFrom_getD _ _ _ 0 i (by omega), zero_add, if_neg hnotmem]
    exact hl0
  · exact hl0

/-- Witness for C9: the first row of the two-row dataset has
recency 200, engagement 20, frequency 0 and spend 0 below the 30th spend
percentile 30, and ends with composite score 1 and churn label 1. -/
theorem churn_example_labeled_one_witness :
    ((wDF.get ⟨0, by decide⟩).days_since_last_purchase = 200 ∧
     (wDF.get ⟨0, by decide⟩).engagement_score = 20 ∧
     (wDF.get ⟨0, by decide⟩).purchase_frequency = 0 ∧
     (wDF.get ⟨0, by decide⟩).total_spent < quantile (wDF.map (·.total_spent)) 0.3) ∧
    ((churn_score_col wDF).getD 0 0 = 1 ∧ (churnLabels wDF).getD 0 0 = 1) :=
  ⟨⟨by decide, by decide, by decide, by with_unfolding_all decide⟩,
    churn_example_labeled_one wDF 0 (by decide) (by decide) (by decide) (by decide)
      (by with_unfolding_all decide)⟩

end CRM
